import Mathlib

/-!
Verification development for the blscint statistical engine.

Shallow embedding of the core numeric routines of the repository:
`blscint/diag_stats.py` (autocorrelation estimation, diagnostic-statistics
aggregation), `blscint/gen_pdf.py` (bivariate-PDF Markov-chain synthesizer),
and `blscint/simulations/timeseries/fft.py` (spectral synthesizer).

Modelling conventions:
* Machine floating-point numbers are idealized as exact numbers (`ℚ` for the
  purely rational array computations of `autocorr`, `ℝ` where transcendental
  functions appear).  The IEEE special values produced by division are modelled
  explicitly by the type `FV` (finite / +inf / -inf / NaN), because several
  claims are about NaN/Inf production at zero divisors.
* NumPy/SciPy library routines used by the code are embedded by their
  documented semantics (`np.correlate`, `np.fft.fft`, `np.linspace`,
  `scipy.special.i0`, ...).  Truly external, opaque collaborators (the
  `scipy.optimize.curve_fit` optimizer, `scipy.stats` test statistics, the
  ambient NumPy random generator) are passed in as explicit parameters.
* Python control effects are modelled by `PyResult`: normal return, a raised
  exception propagating to the caller, process termination (`sys.exit`),
  and divergence (a loop that never terminates).
-/

namespace Blscint

/-- Model of an IEEE double as produced by the array arithmetic in
`diag_stats.autocorr`: a finite value of the underlying exact field, one of
the two infinities, or NaN. -/
inductive FV (α : Type) : Type
  | fin (x : α)
  | pinf
  | ninf
  | nan
  deriving DecidableEq

/-- IEEE division `num / den` of two finite values: `0/0` is NaN, `x/0` for
`x ≠ 0` is a signed infinity (the zero divisor arising in `autocorr` is the
positive zero `acf[0]`), and otherwise the exact quotient. -/
def fvDiv {α : Type} [LinearOrderedField α] (num den : α) : FV α :=
  if den = 0 then
    (if num = 0 then FV.nan else if 0 < num then FV.pinf else FV.ninf)
  else FV.fin (num / den)

/-- IEEE multiplication of a (possibly non-finite) value by a finite scalar,
used for the `dt` rescaling of `fit_t_d` in `get_diag_stats`. -/
def fvScale {α : Type} [LinearOrderedField α] (v : FV α) (d : α) : FV α :=
  match v with
  | FV.fin x => FV.fin (x * d)
  | FV.nan => FV.nan
  | FV.pinf => if 0 < d then FV.pinf else if d = 0 then FV.nan else FV.ninf
  | FV.ninf => if 0 < d then FV.ninf else if d = 0 then FV.nan else FV.pinf

/-- `np.mean`: the sample mean of a list (sum divided by length). -/
def npMean {α : Type} [LinearOrderedField α] (ts : List α) : α :=
  ts.sum / (ts.length : α)

/-- The mean-subtracted series `ts - np.mean(ts)` of `diag_stats.autocorr`
(line `ts = (ts - np.mean(ts))`). -/
def centered {α : Type} [LinearOrderedField α] (ts : List α) : List α :=
  ts.map (fun x => x - npMean ts)

/-- Lag-`j` linear autocovariance term of a centered series `c`:
`∑ c[n] * c[n-j]` over the overlap.  This is entry `j` of
`np.correlate(c, c, 'full')[-len(c):]` (non-negative lags, lag 0 first). -/
def lagDot {α : Type} [LinearOrderedField α] (c : List α) (j : ℕ) : α :=
  (List.zipWith (fun a b => a * b) (c.drop j) c).sum

/-- The un-normalized autocorrelation array
`np.correlate(ts - mean, ts - mean, 'full')[-len(ts):]` of
`diag_stats.autocorr`: lags `0 .. N-1`, lag 0 first. -/
def rawACF {α : Type} [LinearOrderedField α] (ts : List α) : List α :=
  (List.range ts.length).map (fun j => lagDot (centered ts) j)

/-- Embedding of `diag_stats.autocorr(ts, remove_spike)` (lines 14-25).
Subtract the sample mean, compute the full linear autocorrelation keeping
non-negative lags (lag 0 first); if `remove_spike`, overwrite `acf[0]` with
`acf[1]`; then divide the whole array by the (possibly corrected) `acf[0]`
with IEEE division semantics.  `none` models the Python error cases: the
empty series (`np.correlate` raises ValueError) and the length-1 series with
`remove_spike` (reading `acf[1]` raises IndexError).  The function never
raises on a constant series: it performs `0/0` divisions and returns NaNs. -/
def autocorr {α : Type} [LinearOrderedField α] (ts : List α)
    (remove_spike : Bool := false) : Option (List (FV α)) :=
  let acf := rawACF ts
  if acf.length = 0 then none
  else
    let acf2 := if remove_spike then acf.set 0 (acf.getD 1 0) else acf
    if remove_spike ∧ acf.length < 2 then none
    else some (acf2.map (fun v => fvDiv v (acf2.getD 0 0)))

/-- `diag_stats.acf` is an alias for `autocorr`. -/
def acf {α : Type} [LinearOrderedField α] (ts : List α)
    (remove_spike : Bool := false) : Option (List (FV α)) :=
  autocorr ts remove_spike

section AutocorrLemmas

variable {α : Type} [LinearOrderedField α]

lemma zip_self_sum_nonneg (l : List α) :
    0 ≤ (List.zipWith (fun a b => a * b) l l).sum := by
  induction l with
  | nil => simp
  | cons a t ih =>
    simpa using add_nonneg (mul_self_nonneg a) ih

lemma zip_self_sum_eq_zero {l : List α}
    (h : (List.zipWith (fun a b => a * b) l l).sum = 0) : ∀ x ∈ l, x = 0 := by
  induction l with
  | nil => simp
  | cons a t ih =>
    simp only [List.zipWith_cons_cons, List.sum_cons] at h
    have ha : a * a = 0 := by
      have h1 := mul_self_nonneg a
      have h2 := zip_self_sum_nonneg t
      linarith
    have ht : (List.zipWith (fun a b => a * b) t t).sum = 0 := by
      have h1 := mul_self_nonneg a
      have h2 := zip_self_sum_nonneg t
      linarith
    intro x hx
    rcases List.mem_cons.mp hx with rfl | hx
    · exact mul_self_eq_zero.mp ha
    · exact ih ht x hx

lemma zip_mul_left_zero {l : List α} (r : List α) (h : ∀ x ∈ l, x = 0) :
    (List.zipWith (fun a b => a * b) l r).sum = 0 := by
  induction l generalizing r with
  | nil => simp
  | cons a t ih =>
    cases r with
    | nil => simp
    | cons b s =>
      have ha : a = 0 := h a (List.mem_cons_self a t)
      simp only [List.zipWith_cons_cons, List.sum_cons, ha, zero_mul, zero_add]
      exact ih s (fun x hx => h x (List.mem_cons_of_mem a hx))

lemma lagDot_eq_zero {c : List α} (h : ∀ x ∈ c, x = 0) (j : ℕ) :
    lagDot c j = 0 :=
  zip_mul_left_zero c (fun x hx => h x (List.mem_of_mem_drop hx))

lemma rawACF_length (ts : List α) : (rawACF ts).length = ts.length := by
  simp [rawACF]

lemma rawACF_getD_zero {ts : List α} (h : ts ≠ []) :
    (rawACF ts).getD 0 0 = lagDot (centered ts) 0 := by
  cases ts with
  | nil => exact absurd rfl h
  | cons a t =>
    simp [rawACF, List.range_succ_eq_map]

lemma rawACF_all_zero {ts : List α} (h : ts ≠ [])
    (h0 : (rawACF ts).getD 0 0 = 0) :
    rawACF ts = List.replicate ts.length (0 : α) := by
  have hc : ∀ x ∈ centered ts, x = 0 := by
    apply zip_self_sum_eq_zero
    have := rawACF_getD_zero h
    rw [h0] at this
    simpa [lagDot, List.drop_zero] using this.symm
  refine List.eq_replicate_iff.mpr ⟨rawACF_length ts, ?_⟩
  intro b hb
  rcases List.mem_map.mp hb with ⟨j, _, rfl⟩
  exact lagDot_eq_zero hc j

end AutocorrLemmas

section AutocorrStructure

variable {α : Type} [LinearOrderedField α]

lemma autocorr_true_elim {ts : List α} {l : List (FV α)}
    (hl : autocorr ts true = some l) :
    ∃ a b rest, rawACF ts = a :: b :: rest ∧
      l = (b :: b :: rest).map (fun v => fvDiv v b) := by
  unfold autocorr at hl
  cases hacf : rawACF ts with
  | nil => rw [hacf] at hl; simp at hl
  | cons a t =>
    cases t with
    | nil => rw [hacf] at hl; simp at hl
    | cons b rest =>
      rw [hacf] at hl
      simp at hl
      exact ⟨a, b, rest, rfl, hl.symm⟩

lemma autocorr_false_elim {ts : List α} {l : List (FV α)}
    (hl : autocorr ts false = some l) :
    ∃ a rest, rawACF ts = a :: rest ∧
      l = (a :: rest).map (fun v => fvDiv v a) := by
  unfold autocorr at hl
  cases hacf : rawACF ts with
  | nil => rw [hacf] at hl; simp at hl
  | cons a rest =>
    rw [hacf] at hl
    simp at hl
    exact ⟨a, rest, rfl, hl.symm⟩

lemma autocorr_some_of_ne_nil {ts : List α} (h : ts ≠ []) :
    autocorr ts false =
      some ((rawACF ts).map (fun v => fvDiv v ((rawACF ts).getD 0 0))) := by
  have hlen : (rawACF ts).length ≠ 0 := by
    rw [rawACF_length]
    exact fun hh => h (List.length_eq_zero.mp hh)
  unfold autocorr
  simp [hlen]

end AutocorrStructure

/-! Diagnostic-statistics aggregator (`diag_stats.get_diag_stats`). -/

/-- `np.std`: the population standard deviation
`sqrt(mean((x - mean(x))^2))`. -/
noncomputable def npStd (ts : List ℝ) : ℝ :=
  Real.sqrt (npMean (ts.map (fun x => (x - npMean ts) ^ 2)))

/-- `np.min` of a nonempty list (on an empty array `np.min` raises; the
zero default is never reached by the theorems below). -/
noncomputable def npMin (ts : List ℝ) : ℝ :=
  match ts with
  | [] => 0
  | x :: xs => xs.foldl min x

/-- Embedding of `diag_stats.fit_acf` (lines 143-165).  The bounded
nonlinear optimizer `scipy.optimize.curve_fit` is an external collaborator;
its outcome enters as the parameter `curveFit`, where `Except.error` models
a raised `RuntimeError` on non-convergence — which `fit_acf` itself does
not catch, so it propagates.  In `remove_spike` mode the code returns
`[popt[0], 1, 0]`; otherwise it returns `popt` unchanged. -/
def fit_acf (curveFit : Except Unit (List ℝ)) (remove_spike : Bool := false) :
    Except Unit (List ℝ) :=
  if remove_spike then curveFit.map (fun popt => [popt.getD 0 0, 1, 0])
  else curveFit

/-- Embedding of `diag_stats.get_diag_stats(ts, dt, pow, use_triangle)`
(lines 32-71) on a plain array input.  The SciPy test statistics
`scipy.stats.kstest(..., 'expon')` and `scipy.stats.anderson(..., 'expon')`
and the curve-fit optimizer are external collaborators entering as the
parameters `ksStat`, `andersonStat` and `curveFit` (the `pow` and
`use_triangle` knobs only configure the external optimizer).  The
`try/except RuntimeError` around the `fit_acf` call substitutes the triple
`[nan, nan, nan]`; `fit_t_d` is rescaled by `dt` when `dt` is given.
Returns `none` for series shorter than 3 (reading `ac[2]` raises
IndexError).  The dict keys follow source insertion order; `fchans`, `l`
and `r` are NOT produced (the `fchans` line is commented out). -/
noncomputable def get_diag_stats (ksStat andersonStat : List ℝ → ℝ)
    (curveFit : Except Unit (List ℝ)) (ts : List ℝ) (dt : Option ℝ) :
    Option (List (String × Option (FV ℝ))) :=
  match autocorr ts false with
  | none => none
  | some ac =>
    if ac.length < 3 then none
    else
      let popt : FV ℝ × FV ℝ × FV ℝ :=
        match fit_acf curveFit false with
        | Except.ok l => (FV.fin (l.getD 0 0), FV.fin (l.getD 1 0), FV.fin (l.getD 2 0))
        | Except.error _ => (FV.nan, FV.nan, FV.nan)
      let fit_t_d : FV ℝ :=
        match dt with
        | some d => fvScale popt.1 d
        | none => popt.1
      some [("std", some (FV.fin (npStd ts))),
            ("min", some (FV.fin (npMin ts))),
            ("ks", some (FV.fin (ksStat ts))),
            ("anderson", some (FV.fin (andersonStat ts))),
            ("lag1", some (ac.getD 1 FV.nan)),
            ("lag2", some (ac.getD 2 FV.nan)),
            ("fit_t_d", some fit_t_d),
            ("fit_A", some popt.2.1),
            ("fit_W", some popt.2.2)]

/-- Embedding of `diag_stats.empty_diag_stats(fchans)` (lines 74-108): the
sentinel record, a dict literal with `None` for every statistical field and
only `fchans` set, in source insertion order. -/
def empty_diag_stats (fchans : ℕ) : List (String × Option (FV ℝ)) :=
  [("std", none), ("min", none), ("ks", none), ("anderson", none),
   ("lag1", none), ("lag2", none), ("fchans", some (FV.fin (fchans : ℝ))),
   ("l", none), ("r", none), ("fit_t_d", none), ("fit_A", none),
   ("fit_W", none)]

/-- Claim C2 (amended): on a series whose pre-normalization zero-lag
autocorrelation `ac[0]` is zero (a constant series), `autocorr` does not
raise any error: it divides the all-zero autocovariance array by zero and
returns an array consisting entirely of NaN values. -/
theorem C2_degenerate_returns_nan (ts : List ℚ) (h : ts ≠ [])
    (h0 : (rawACF ts).getD 0 0 = 0) :
    autocorr ts false = some (List.replicate ts.length (FV.nan : FV ℚ)) := by
  have hraw := rawACF_all_zero h h0
  rw [autocorr_some_of_ne_nil h, hraw]
  obtain ⟨a, t, rfl⟩ : ∃ a t, ts = a :: t := by
    cases ts with
    | nil => exact absurd rfl h
    | cons a t => exact ⟨a, t, rfl⟩
  simp only [List.length_cons, List.replicate_succ, List.getD_cons_zero,
    List.map_replicate, List.map_cons, Option.some.injEq, List.cons.injEq]
  exact ⟨rfl, rfl⟩

/-- Witness for C2_degenerate_returns_nan at the constant series `[1,1,1]`. -/
theorem C2_degenerate_returns_nan_witness :
    (([1, 1, 1] : List ℚ) ≠ [] ∧ (rawACF ([1, 1, 1] : List ℚ)).getD 0 0 = 0) ∧
    autocorr ([1, 1, 1] : List ℚ) false =
      some (List.replicate ([1, 1, 1] : List ℚ).length (FV.nan : FV ℚ)) :=
  ⟨⟨by simp, by norm_num [rawACF, centered, npMean, lagDot, List.range_succ]⟩,
    C2_degenerate_returns_nan [1, 1, 1] (by simp)
      (by norm_num [rawACF, centered, npMean, lagDot, List.range_succ])⟩

/-- Counterexample to claim C2 as stated: on the constant series `[1,1,1]`
`autocorr` does not raise; it returns an array that contains NaN (indeed all
its entries are NaN). -/
theorem C2_counterexample :
    autocorr ([1, 1, 1] : List ℚ) false = some [FV.nan, FV.nan, FV.nan] ∧
    FV.nan ∈ [(FV.nan : FV ℚ), FV.nan, FV.nan] := by
  constructor
  · norm_num [autocorr, rawACF, centered, npMean, lagDot, List.range_succ, fvDiv]
  · simp

/-- Claim C5 (amended): `autocorr` subtracts the sample mean, computes the
full linear autocorrelation keeping non-negative lags with lag 0 first,
overwrites `ac[0]` with `ac[1]` when `remove_spike` is set, and normalizes by
the (possibly corrected) `ac[0]`; whenever that normalizer is nonzero the
returned array has element 0 exactly equal to 1 (and has the input's length).
When `remove_spike` is true and the lag-1 autocovariance is zero the
normalizer vanishes and element 0 is NaN instead (see the counterexample). -/
theorem C5_head_exactly_one (ts : List ℚ) (rs : Bool) (l : List (FV ℚ))
    (hl : autocorr ts rs = some l)
    (hnz : (rawACF ts).getD (if rs then 1 else 0) 0 ≠ 0) :
    l.getD 0 FV.nan = FV.fin 1 ∧ l.length = ts.length := by
  cases rs with
  | false =>
    obtain ⟨a, rest, hacf, hl⟩ := autocorr_false_elim hl
    have ha : a ≠ 0 := by
      rw [hacf] at hnz
      simpa using hnz
    constructor
    · rw [hl]
      simp only [List.map_cons, List.getD_cons_zero, fvDiv, if_neg ha]
      rw [div_self ha]
    · rw [hl]
      have := rawACF_length ts
      rw [hacf] at this
      simpa using this
  | true =>
    obtain ⟨a, b, rest, hacf, hl⟩ := autocorr_true_elim hl
    have hb : b ≠ 0 := by
      rw [hacf] at hnz
      simpa using hnz
    constructor
    · rw [hl]
      simp only [List.map_cons, List.getD_cons_zero, fvDiv, if_neg hb]
      rw [div_self hb]
    · rw [hl]
      have := rawACF_length ts
      rw [hacf] at this
      simpa using this

/-- Witness for C5_head_exactly_one at the series `[1,2,3]` (no spike
removal): the returned ACF has head exactly 1. -/
theorem C5_head_exactly_one_witness :
    (autocorr ([1, 2, 3] : List ℚ) false =
        some [FV.fin 1, FV.fin 0, FV.fin (-(1 : ℚ) / 2)] ∧
      (rawACF ([1, 2, 3] : List ℚ)).getD (if false then 1 else 0) 0 ≠ 0) ∧
    ([FV.fin 1, FV.fin 0, FV.fin (-(1 : ℚ) / 2)].getD 0 FV.nan = FV.fin 1 ∧
      ([FV.fin (1 : ℚ), FV.fin 0, FV.fin (-(1 : ℚ) / 2)]).length =
        ([1, 2, 3] : List ℚ).length) :=
  ⟨⟨by norm_num [autocorr, rawACF, centered, npMean, lagDot, List.range_succ, fvDiv],
      by norm_num [rawACF, centered, npMean, lagDot, List.range_succ]⟩,
    C5_head_exactly_one [1, 2, 3] false [FV.fin 1, FV.fin 0, FV.fin (-(1 : ℚ) / 2)]
      (by norm_num [autocorr, rawACF, centered, npMean, lagDot, List.range_succ, fvDiv])
      (by norm_num [rawACF, centered, npMean, lagDot, List.range_succ])⟩

/-- Counterexample to claim C5 as stated: `[0,1,0,-1]` is a non-degenerate
series (its variance term `ac[0] = 2` is nonzero), yet with
`remove_spike = True` the corrected normalizer is the zero lag-1
autocovariance, and the returned array has element 0 equal to NaN, not 1. -/
theorem C5_counterexample :
    autocorr ([0, 1, 0, -1] : List ℚ) true =
      some [FV.nan, FV.nan, FV.ninf, FV.nan] ∧
    (rawACF ([0, 1, 0, -1] : List ℚ)).getD 0 0 ≠ 0 ∧
    ([FV.nan, FV.nan, FV.ninf, (FV.nan : FV ℚ)].getD 0 FV.nan ≠ FV.fin 1) := by
  refine ⟨?_, ?_, by simp⟩
  · norm_num [autocorr, rawACF, centered, npMean, lagDot, List.range_succ, fvDiv]
  · norm_num [rawACF, centered, npMean, lagDot, List.range_succ]

/-- Claim C10: whenever `autocorr` with `remove_spike = true` succeeds
(returns an array free of NaN), the returned array has `ac[1]` exactly 1,
equal to `ac[0]`: lag 0 was overwritten with the lag-1 value before
normalization, so the normalized lag-1 autocorrelation carries no
information. -/
theorem C10_lag1_exactly_one (ts : List ℚ) (l : List (FV ℚ))
    (hl : autocorr ts true = some l) (hfin : FV.nan ∉ l) :
    l.getD 1 FV.nan = FV.fin 1 ∧ l.getD 1 FV.nan = l.getD 0 FV.nan := by
  obtain ⟨a, b, rest, hacf, hl⟩ := autocorr_true_elim hl
  by_cases hb : b = 0
  · exfalso
    apply hfin
    rw [hl, hb]
    simp only [List.map_cons, List.mem_cons]
    left
    simp [fvDiv]
  · have hfb : fvDiv b b = FV.fin 1 := by
      simp only [fvDiv, if_neg hb]
      rw [div_self hb]
    rw [hl]
    simp [List.getD_cons_succ, List.getD_cons_zero, hfb]

/-- Witness for C10_lag1_exactly_one at the series `[1,2,4]`: the
spike-removed ACF is `[1, 1, 20]`, NaN-free with `ac[1] = ac[0] = 1`. -/
theorem C10_lag1_exactly_one_witness :
    (autocorr ([1, 2, 4] : List ℚ) true =
        some [FV.fin 1, FV.fin 1, FV.fin 20] ∧
      FV.nan ∉ [FV.fin (1 : ℚ), FV.fin 1, FV.fin 20]) ∧
    ([FV.fin (1 : ℚ), FV.fin 1, FV.fin 20].getD 1 FV.nan = FV.fin 1 ∧
      [FV.fin (1 : ℚ), FV.fin 1, FV.fin 20].getD 1 FV.nan =
        [FV.fin (1 : ℚ), FV.fin 1, FV.fin 20].getD 0 FV.nan) :=
  ⟨⟨by norm_num [autocorr, rawACF, centered, npMean, lagDot, List.range_succ, fvDiv],
      by simp⟩,
    C10_lag1_exactly_one [1, 2, 4] [FV.fin 1, FV.fin 1, FV.fin 20]
      (by norm_num [autocorr, rawACF, centered, npMean, lagDot, List.range_succ, fvDiv])
      (by simp)⟩

/-! Markov-chain synthesizer (`gen_pdf.get_ts_pdf`) and its bivariate
density `gen_pdf.bpdf`. -/

/-- Model of `scipy.special.i0`, the modified Bessel function of the first
kind of order zero, via its power series `∑ (x/2)^(2k) / (k!)^2`. -/
noncomputable def i0 (x : ℝ) : ℝ :=
  tsum (fun k : ℕ => (x / 2) ^ (2 * k) / ((Nat.factorial k : ℝ) ^ 2))

/-- Overflow threshold of IEEE double precision: `scipy.special.i0`
returns `inf` exactly when the true function value exceeds the largest
finite double, idealized here as `2^1024`. -/
noncomputable def FMAX : ℝ := 2 ^ (1024 : ℕ)

/-- Primary closed form of `gen_pdf.bpdf` (line 44): the Rician-type joint
density `1/(1-ac) * exp(-(g1+g2)/(1-ac)) * I0(2*sqrt(g1*g2*ac)/(1-ac))`
of Cordes, Lazio & Sagan 1997, Eq. B12. -/
noncomputable def bpdfPrimary (g1 g2 ac : ℝ) : ℝ :=
  1 / (1 - ac) * Real.exp (-(g1 + g2) / (1 - ac)) *
    i0 (2 * Real.sqrt (g1 * g2 * ac) / (1 - ac))

/-- Asymptotic fallback of `gen_pdf.bpdf` (line 42): the large-argument
exponential approximation of `I0` substituted into the same closed form. -/
noncomputable def bpdfAsympt (g1 g2 ac : ℝ) : ℝ :=
  1 / (1 - ac) *
    Real.exp ((-(g1 + g2) + 2 * Real.sqrt (g1 * g2 * ac)) / (1 - ac)) *
    Real.sqrt (4 * Real.pi * Real.sqrt (g1 * g2 * ac) / (1 - ac))

open Classical in
/-- Embedding of `gen_pdf.bpdf(g1, g2, ac)` (lines 32-44) in its array use
(`g2` ranges over the gain grid, as in `get_ts_pdf`): compute the Bessel
factor for every grid point; if any of them is infinite in double
precision (true value above the overflow threshold `FMAX`), recompute the
WHOLE array with the asymptotic form, otherwise return the primary form —
a pure conditional branch, never mixing the two forms in one evaluation. -/
noncomputable def bpdf (g1 : ℝ) (g2s : List ℝ) (ac : ℝ) : List ℝ :=
  if ∃ g2 ∈ g2s, FMAX < i0 (2 * Real.sqrt (g1 * g2 * ac) / (1 - ac)) then
    g2s.map (fun g2 => bpdfAsympt g1 g2 ac)
  else
    g2s.map (fun g2 => bpdfPrimary g1 g2 ac)

/-- Model of the external `setigen.func_utils.gaussian(x, x0, sigma)`:
`exp(-(x-x0)^2 / (2 sigma^2))`. -/
noncomputable def gaussian (x x0 sigma : ℝ) : ℝ :=
  Real.exp (-(x - x0) ^ 2 / (2 * sigma ^ 2))

/-- Modelled from the spec: `factors.hwem_m` (the `factors` module of this
repository is not under `src/`), the half-width-at-`e⁻¹`-maximum
multiplier converting the scintillation timescale into the Gaussian sigma
of the lag-correlation table.  No claim depends on its value. -/
noncomputable def hwem_m : ℝ := Real.sqrt 2

/-- `np.linspace(start, stop, num, endpoint=False)`: `num` evenly spaced
points starting at `start` with step `(stop-start)/num`. -/
noncomputable def linspace (start stop : ℝ) (num : ℕ) : List ℝ :=
  (List.range num).map (fun (i : ℕ) => start + (i : ℝ) * ((stop - start) / num))

/-- Tail recursion of `np.argmin`: `bv`/`bi` track the best value and its
index so far, `ci` the index of the head of the remaining list; a strict
comparison keeps the FIRST occurrence of the minimum, as NumPy does. -/
noncomputable def argminAux : List ℝ → ℝ → ℕ → ℕ → ℕ
  | [], _, bi, _ => bi
  | x :: xs, bv, bi, ci =>
    if x < bv then argminAux xs x ci (ci + 1) else argminAux xs bv bi (ci + 1)

/-- `np.argmin` (first occurrence of the minimum; 0 on the empty array,
where NumPy raises ValueError — that case is guarded in `get_ts_pdf`). -/
noncomputable def argminIdx : List ℝ → ℕ
  | [] => 0
  | x :: xs => argminAux xs x 0 1

/-- Embedding of `gen_pdf.find_nearest(arr, val)` (lines 24-29):
`np.abs(np.array(arr) - val).argmin()`. -/
noncomputable def find_nearest (arr : List ℝ) (val : ℝ) : ℕ :=
  argminIdx (arr.map (fun a => |a - val|))

/-- Validity test `np.random.choice` applies to its `p` argument:
non-negative entries summing to 1 (NaN entries or a wrong sum raise
ValueError; the floating-point tolerance of the sum check is idealized to
exactness). -/
def pmfValid (p : List ℝ) : Prop := (∀ x ∈ p, 0 ≤ x) ∧ p.sum = 1

/-- Categorical sampling by CDF inversion, as `np.random.choice` performs
with a single uniform draw `u`: the first index whose cumulative
probability exceeds `u`. -/
noncomputable def cdfIndex : List ℝ → ℝ → ℕ
  | [], _ => 0
  | q :: rest, u => if u < q then 0 else cdfIndex rest (u - q) + 1

/-- Python exceptions that `get_ts_pdf` can let escape to its caller. -/
inductive PyExn : Type
  | indexError
  | valueError
  deriving DecidableEq

/-- Outcome of running a Python procedure: a returned value, an uncaught
exception propagating to the caller, process termination via `sys.exit`,
or divergence (a loop that never terminates). -/
inductive PyResult (α : Type) : Type
  | ok (val : α)
  | raised (e : PyExn)
  | exit (code : ℕ)
  | diverge

open Classical in
/-- Embedding of the guarded chain step of `gen_pdf.get_ts_pdf`
(lines 80-85): `try: ts_idx[i] = np.random.choice(np.arange(steps), p=p)
except: print(i); sys.exit(1)`.  `np.random.choice` draws one uniform `u`
and inverts the CDF; if `p` is not a valid probability vector it raises
ValueError, and the bare `except` handler then terminates the host process
with exit code 1 — it signals nothing to the caller. -/
noncomputable def drawNext (p : List ℝ) (u : ℝ) : PyResult ℕ :=
  if pmfValid p then PyResult.ok (cdfIndex p u) else PyResult.exit 1

/-- The sampling loop of `get_ts_pdf` (lines 69-85): starting from grid
index `prev`, repeatedly evaluate `bpdf(possible_g[prev], possible_g,
ac_arr[1])`, normalize to a PMF and draw the next index via `drawNext`.
`ac1` is `ac_arr[1]` when it exists (`none` models the IndexError raised
when `steps < 2`), `i` is the loop counter (also the stream position of
the uniform draws), `count` the number of remaining iterations. -/
noncomputable def markovChain (uDraws : ℕ → ℝ) (possible_g : List ℝ)
    (ac1 : Option ℝ) : ℕ → ℕ → ℕ → PyResult (List ℕ)
  | _, _, 0 => PyResult.ok []
  | prev, i, count + 1 =>
    match ac1 with
    | none => PyResult.raised PyExn.indexError
    | some a =>
      let raw_p := bpdf (possible_g.getD prev 0) possible_g a
      let p := raw_p.map (fun x => x / raw_p.sum)
      match drawNext p (uDraws i) with
      | PyResult.ok j =>
        match markovChain uDraws possible_g ac1 j (i + 1) count with
        | PyResult.ok rest => PyResult.ok (j :: rest)
        | e => e
      | PyResult.raised e => PyResult.raised e
      | PyResult.exit c => PyResult.exit c
      | PyResult.diverge => PyResult.diverge

open Classical in
/-- Embedding of `gen_pdf.get_ts_pdf(t_d, dt, num_samples, max_g, steps)`
(lines 47-87).  The function takes NO seed or generator argument: it
consumes the ambient global NumPy generator, modelled by two draw streams:
`expDraws` (successive `np.random.exponential()` draws of the rejection
loop) and `uDraws` (the uniform draws consumed by `np.random.choice`).
The first sample rejection-samples the exponential stream until a draw is
`≤ max_g` (diverging if that never happens, like the Python `while` loop)
and snaps to the nearest grid point; the remaining `num_samples - 1`
samples follow `markovChain`.  An empty grid raises ValueError inside
`find_nearest`; `num_samples = 0` raises IndexError on the assignment
`ts_idx[0] = ...`. -/
noncomputable def get_ts_pdf (expDraws uDraws : ℕ → ℝ) (t_d dt : ℝ)
    (num_samples : ℕ) (max_g : ℝ := 5) (steps : ℕ := 1000) :
    PyResult (List ℝ) :=
  let ac_arr := (List.range steps).map
    (fun (i : ℕ) => gaussian (i : ℝ) 0 (t_d / dt / hwem_m))
  let possible_g := linspace 0 max_g steps
  if h : ∃ n, expDraws n ≤ max_g then
    let init_g := expDraws (Nat.find h)
    if possible_g = [] then PyResult.raised PyExn.valueError
    else if num_samples = 0 then PyResult.raised PyExn.indexError
    else
      let idx0 := find_nearest possible_g init_g
      let _update_freq : ℤ := ⌈t_d / dt⌉
      match markovChain uDraws possible_g (ac_arr.get? 1) idx0 1
          (num_samples - 1) with
      | PyResult.ok rest =>
          PyResult.ok ((idx0 :: rest).map (fun j => possible_g.getD j 0))
      | PyResult.raised e => PyResult.raised e
      | PyResult.exit c => PyResult.exit c
      | PyResult.diverge => PyResult.diverge
  else PyResult.diverge

/-- Claim C6: when the ACF fit's optimizer fails to converge (a raised
`RuntimeError`, modelled by `Except.error`), `get_diag_stats` recovers
locally: the record is still produced, its fit fields are the NaN triple,
and the non-fit statistics (`std`, `min`, `ks`, `anderson`, `lag1`, `lag2`)
are computed from the series exactly as in the successful case. -/
theorem C6_fit_failure_recovered (k a : List ℝ → ℝ) (ts : List ℝ)
    (dt : Option ℝ) (h3 : 3 ≤ ts.length) :
    ∃ ac, autocorr ts false = some ac ∧
      get_diag_stats k a (Except.error ()) ts dt =
        some [("std", some (FV.fin (npStd ts))),
              ("min", some (FV.fin (npMin ts))),
              ("ks", some (FV.fin (k ts))),
              ("anderson", some (FV.fin (a ts))),
              ("lag1", some (ac.getD 1 FV.nan)),
              ("lag2", some (ac.getD 2 FV.nan)),
              ("fit_t_d", some FV.nan),
              ("fit_A", some FV.nan),
              ("fit_W", some FV.nan)] := by
  have hne : ts ≠ [] := by
    intro h
    rw [h] at h3
    simp at h3
  have hac := autocorr_some_of_ne_nil hne
  refine ⟨_, hac, ?_⟩
  unfold get_diag_stats
  rw [hac]
  dsimp only
  have hlen : ¬((rawACF ts).map
      (fun v => fvDiv v ((rawACF ts).getD 0 0))).length < 3 := by
    rw [List.length_map, rawACF_length]
    omega
  rw [if_neg hlen]
  cases dt with
  | none => rfl
  | some d => rfl

/-- Witness for C6_fit_failure_recovered at the series `[1,2,3]` with
trivial external statistics and no `dt`. -/
theorem C6_fit_failure_recovered_witness :
    3 ≤ ([1, 2, 3] : List ℝ).length ∧
    ∃ ac, autocorr ([1, 2, 3] : List ℝ) false = some ac ∧
      get_diag_stats (fun _ => 0) (fun _ => 0) (Except.error ())
          [1, 2, 3] none =
        some [("std", some (FV.fin (npStd [1, 2, 3]))),
              ("min", some (FV.fin (npMin [1, 2, 3]))),
              ("ks", some (FV.fin 0)),
              ("anderson", some (FV.fin 0)),
              ("lag1", some (ac.getD 1 FV.nan)),
              ("lag2", some (ac.getD 2 FV.nan)),
              ("fit_t_d", some FV.nan),
              ("fit_A", some FV.nan),
              ("fit_W", some FV.nan)] :=
  ⟨by norm_num,
    C6_fit_failure_recovered (fun _ => 0) (fun _ => 0) [1, 2, 3] none
      (by norm_num)⟩

/-- Claim C7 (amended): the sentinel `empty_diag_stats(fchans)` carries
exactly the twelve fields `std, min, ks, anderson, lag1, lag2, fchans, l,
r, fit_t_d, fit_A, fit_W`, with every statistical field null and only
`fchans` set; but a valid record from `get_diag_stats` carries only the
nine fields `std, min, ks, anderson, lag1, lag2, fit_t_d, fit_A, fit_W` —
the `fchans` assignment is commented out in the source and `l`, `r` are
never produced there. -/
theorem C7_field_sets :
    (∀ (k a : List ℝ → ℝ) (cf : Except Unit (List ℝ)) (ts : List ℝ)
        (dt : Option ℝ) (r : List (String × Option (FV ℝ))),
        get_diag_stats k a cf ts dt = some r →
          r.map Prod.fst =
            ["std", "min", "ks", "anderson", "lag1", "lag2",
             "fit_t_d", "fit_A", "fit_W"]) ∧
    (∀ fchans : ℕ,
      (empty_diag_stats fchans).map Prod.fst =
          ["std", "min", "ks", "anderson", "lag1", "lag2", "fchans",
           "l", "r", "fit_t_d", "fit_A", "fit_W"] ∧
        ("fchans", some (FV.fin (fchans : ℝ))) ∈ empty_diag_stats fchans ∧
        ∀ p ∈ empty_diag_stats fchans, (p.2 = none ↔ p.1 ≠ "fchans")) := by
  constructor
  · intro k a cf ts dt r hr
    unfold get_diag_stats at hr
    cases hac : autocorr ts false with
    | none => rw [hac] at hr; simp at hr
    | some ac =>
      rw [hac] at hr
      dsimp only at hr
      by_cases hlen : ac.length < 3
      · rw [if_pos hlen] at hr
        simp at hr
      · rw [if_neg hlen] at hr
        simp only [Option.some.injEq] at hr
        rw [← hr]
        simp
  · intro fchans
    refine ⟨by simp [empty_diag_stats], by simp [empty_diag_stats], ?_⟩
    intro p hp
    simp only [empty_diag_stats, List.mem_cons, List.not_mem_nil, or_false] at hp
    rcases hp with rfl | rfl | rfl | rfl | rfl | rfl | rfl | rfl | rfl | rfl | rfl | rfl <;>
      simp

/-- Witness for C7_field_sets: both parts instantiated, the first at a
concrete successful `get_diag_stats` call on `[1,2,3]`. -/
theorem C7_field_sets_witness :
    (get_diag_stats (fun _ => 0) (fun _ => 0) (Except.ok [1, 1, 0])
        [1, 2, 3] none =
      some [("std", some (FV.fin (npStd [1, 2, 3]))),
            ("min", some (FV.fin (npMin [1, 2, 3]))),
            ("ks", some (FV.fin 0)),
            ("anderson", some (FV.fin 0)),
            ("lag1", some (FV.fin (0 : ℝ))),
            ("lag2", some (FV.fin (-(1 : ℝ) / 2))),
            ("fit_t_d", some (FV.fin 1)),
            ("fit_A", some (FV.fin 1)),
            ("fit_W", some (FV.fin 0))]) ∧
    ([("std", some (FV.fin (npStd [1, 2, 3]))),
      ("min", some (FV.fin (npMin [1, 2, 3]))),
      ("ks", some (FV.fin (0 : ℝ))),
      ("anderson", some (FV.fin (0 : ℝ))),
      ("lag1", some (FV.fin (0 : ℝ))),
      ("lag2", some (FV.fin (-(1 : ℝ) / 2))),
      ("fit_t_d", some (FV.fin (1 : ℝ))),
      ("fit_A", some (FV.fin (1 : ℝ))),
      ("fit_W", some (FV.fin (0 : ℝ)))] :
        List (String × Option (FV ℝ))).map Prod.fst =
      ["std", "min", "ks", "anderson", "lag1", "lag2",
       "fit_t_d", "fit_A", "fit_W"] ∧
    (empty_diag_stats 256).map Prod.fst =
      ["std", "min", "ks", "anderson", "lag1", "lag2", "fchans",
       "l", "r", "fit_t_d", "fit_A", "fit_W"] := by
  have hac : autocorr ([1, 2, 3] : List ℝ) false =
      some [FV.fin 1, FV.fin 0, FV.fin (-(1 : ℝ) / 2)] := by
    norm_num [autocorr, rawACF, centered, npMean, lagDot, List.range_succ, fvDiv]
  refine ⟨?_, ?_, ?_⟩
  · unfold get_diag_stats
    rw [hac]
    norm_num [fit_acf]
  · exact C7_field_sets.1 (fun _ => 0) (fun _ => 0) (Except.ok [1, 1, 0])
      [1, 2, 3] none _ (by
        unfold get_diag_stats
        rw [hac]
        norm_num [fit_acf])
  · exact (C7_field_sets.2 256).1

/-- Counterexample to claim C7 as stated: a valid record produced by
`get_diag_stats` does not carry the fields `fchans`, `l`, `r` — its key
list has only the nine statistical fields. -/
theorem C7_counterexample :
    (get_diag_stats (fun _ => 0) (fun _ => 0) (Except.ok [1, 1, 0])
          [1, 2, 3] none).map (fun r => r.map Prod.fst) =
      some ["std", "min", "ks", "anderson", "lag1", "lag2",
            "fit_t_d", "fit_A", "fit_W"] ∧
    "fchans" ∉ ["std", "min", "ks", "anderson", "lag1", "lag2",
                "fit_t_d", "fit_A", "fit_W"] ∧
    "l" ∉ ["std", "min", "ks", "anderson", "lag1", "lag2",
           "fit_t_d", "fit_A", "fit_W"] ∧
    "r" ∉ ["std", "min", "ks", "anderson", "lag1", "lag2",
           "fit_t_d", "fit_A", "fit_W"] := by
  have hac : autocorr ([1, 2, 3] : List ℝ) false =
      some [FV.fin 1, FV.fin 0, FV.fin (-(1 : ℝ) / 2)] := by
    norm_num [autocorr, rawACF, centered, npMean, lagDot, List.range_succ, fvDiv]
  refine ⟨?_, by decide, by decide, by decide⟩
  unfold get_diag_stats
  rw [hac]
  norm_num [fit_acf]

section GenPdfLemmas

lemma bpdf_length (g1 : ℝ) (g2s : List ℝ) (ac : ℝ) :
    (bpdf g1 g2s ac).length = g2s.length := by
  unfold bpdf
  split <;> simp

lemma i0_nonneg (x : ℝ) : 0 ≤ i0 x := by
  unfold i0
  apply tsum_nonneg
  intro k
  rw [pow_mul]
  positivity

lemma bpdfPrimary_nonneg {g1 g2 ac : ℝ} (hac1 : ac < 1) :
    0 ≤ bpdfPrimary g1 g2 ac := by
  unfold bpdfPrimary
  have h1 : (0 : ℝ) < 1 - ac := by linarith
  exact mul_nonneg
    (mul_nonneg (by positivity) (Real.exp_pos _).le) (i0_nonneg _)

lemma bpdfAsympt_nonneg {g1 g2 ac : ℝ} (hac1 : ac < 1) :
    0 ≤ bpdfAsympt g1 g2 ac := by
  unfold bpdfAsympt
  have h1 : (0 : ℝ) < 1 - ac := by linarith
  exact mul_nonneg
    (mul_nonneg (by positivity) (Real.exp_pos _).le) (Real.sqrt_nonneg _)

lemma cdfIndex_lt_length :
    ∀ (l : List ℝ) (u : ℝ), 0 ≤ u → u < l.sum → cdfIndex l u < l.length := by
  intro l
  induction l with
  | nil =>
    intro u h0 h1
    simp at h1
    linarith
  | cons q rest ih =>
    intro u h0 h1
    unfold cdfIndex
    by_cases hq : u < q
    · rw [if_pos hq]
      simp
    · rw [if_neg hq]
      push_neg at hq
      have := ih (u - q) (by linarith) (by simp at h1; linarith)
      simpa using this

lemma argminAux_lt (xs : List ℝ) :
    ∀ (bv : ℝ) (bi ci : ℕ), bi < ci → argminAux xs bv bi ci < ci + xs.length := by
  induction xs with
  | nil =>
    intro bv bi ci h
    unfold argminAux
    simpa using h
  | cons x t ih =>
    intro bv bi ci h
    unfold argminAux
    by_cases hx : x < bv
    · rw [if_pos hx]
      have := ih x ci (ci + 1) (Nat.lt_succ_self ci)
      simp only [List.length_cons]
      omega
    · rw [if_neg hx]
      have := ih bv bi (ci + 1) (Nat.lt_succ_of_lt h)
      simp only [List.length_cons]
      omega

lemma argminIdx_lt {l : List ℝ} (h : l ≠ []) : argminIdx l < l.length := by
  cases l with
  | nil => exact absurd rfl h
  | cons x xs =>
    unfold argminIdx
    have := argminAux_lt xs x 0 1 Nat.zero_lt_one
    simpa [Nat.add_comm] using this

lemma find_nearest_lt {arr : List ℝ} (h : arr ≠ []) (val : ℝ) :
    find_nearest arr val < arr.length := by
  unfold find_nearest
  have hne : arr.map (fun a => |a - val|) ≠ [] := by
    simpa using h
  have := argminIdx_lt hne
  simpa using this

lemma drawNext_ok_lt {p : List ℝ} {u : ℝ} {j : ℕ} (hu0 : 0 ≤ u) (hu1 : u < 1)
    (h : drawNext p u = PyResult.ok j) : j < p.length := by
  unfold drawNext at h
  by_cases hv : pmfValid p
  · rw [if_pos hv] at h
    cases h
    exact cdfIndex_lt_length p u hu0 (by rw [hv.2]; exact hu1)
  · rw [if_neg hv] at h
    cases h

lemma markovChain_ok_mem {uDraws : ℕ → ℝ} {g : List ℝ} {ac1 : Option ℝ}
    (hu : ∀ n, 0 ≤ uDraws n ∧ uDraws n < 1) :
    ∀ (count prev i : ℕ) (rest : List ℕ),
      markovChain uDraws g ac1 prev i count = PyResult.ok rest →
        ∀ j ∈ rest, j < g.length := by
  intro count
  induction count with
  | zero =>
    intro prev i rest h
    unfold markovChain at h
    cases h
    simp
  | succ n ih =>
    intro prev i rest h
    unfold markovChain at h
    cases ac1 with
    | none => cases h
    | some a =>
      dsimp only at h
      cases hdn : drawNext
          ((bpdf (g.getD prev 0) g a).map
            (fun x => x / (bpdf (g.getD prev 0) g a).sum)) (uDraws i) with
      | ok j =>
        rw [hdn] at h
        dsimp only at h
        cases hmc : markovChain uDraws g (some a) j (i + 1) n with
        | ok rest0 =>
          rw [hmc] at h
          dsimp only at h
          cases h
          intro j2 hj2
          rcases List.mem_cons.mp hj2 with rfl | hj2
          · have := drawNext_ok_lt (hu i).1 (hu i).2 hdn
            rwa [List.length_map, bpdf_length] at this
          · exact ih j (i + 1) rest0 hmc j2 hj2
        | raised e => rw [hmc] at h; dsimp only at h; cases h
        | exit c => rw [hmc] at h; dsimp only at h; cases h
        | diverge => rw [hmc] at h; dsimp only at h; cases h
      | raised e => rw [hdn] at h; dsimp only at h; cases h
      | exit c => rw [hdn] at h; dsimp only at h; cases h
      | diverge => rw [hdn] at h; dsimp only at h; cases h

lemma linspace_getD_bounds {max_g : ℝ} {steps j : ℕ} (hj : j < steps)
    (hmg : 0 < max_g) :
    (linspace 0 max_g steps).getD j 0 ∈ linspace 0 max_g steps ∧
      0 ≤ (linspace 0 max_g steps).getD j 0 ∧
      (linspace 0 max_g steps).getD j 0 < max_g := by
  have hlength : (linspace 0 max_g steps).length = steps := by
    unfold linspace
    rw [List.length_map, List.length_range]
  have hlen : j < (linspace 0 max_g steps).length := by rw [hlength]; exact hj
  have hval : (linspace 0 max_g steps).getD j 0 = j * (max_g / steps) := by
    rw [List.getD_eq_getElem _ _ hlen]
    unfold linspace
    rw [List.getElem_map]
    rw [List.getElem_range]
    ring
  have hsteps : 0 < steps := Nat.lt_of_le_of_lt (Nat.zero_le j) hj
  refine ⟨?_, ?_, ?_⟩
  · rw [List.getD_eq_getElem _ _ hlen]
    exact List.getElem_mem hlen
  · rw [hval]
    positivity
  · rw [hval]
    have hcast : (j : ℝ) < (steps : ℝ) := by exact_mod_cast hj
    have hpos : (0 : ℝ) < max_g / steps := by positivity
    calc (j : ℝ) * (max_g / steps) < (steps : ℝ) * (max_g / steps) :=
          mul_lt_mul_of_pos_right hcast hpos
      _ = max_g := by
          field_simp

end GenPdfLemmas

section GenPdfEval

lemma linspace_eval : linspace 0 5 2 = [0, 5 / 2] := by
  unfold linspace
  norm_num [List.range_succ]

lemma find_nearest_eval_half : find_nearest [0, 5 / 2] (1 / 2) = 0 := by
  have h1 : |(0 : ℝ) - 1 / 2| = 1 / 2 := by
    rw [abs_of_nonpos (by norm_num)]
    norm_num
  have h2 : |(5 : ℝ) / 2 - 1 / 2| = 2 := by
    rw [abs_of_nonneg (by norm_num)]
    norm_num
  unfold find_nearest
  rw [List.map_cons, List.map_cons, List.map_nil, h1, h2]
  unfold argminIdx argminAux argminAux
  rw [if_neg (by norm_num)]

lemma find_nearest_eval_two : find_nearest [0, 5 / 2] 2 = 1 := by
  have h1 : |(0 : ℝ) - 2| = 2 := by
    rw [abs_of_nonpos (by norm_num)]
    norm_num
  have h2 : |(5 : ℝ) / 2 - 2| = 1 / 2 := by
    rw [abs_of_nonneg (by norm_num)]
    norm_num
  unfold find_nearest
  rw [List.map_cons, List.map_cons, List.map_nil, h1, h2]
  unfold argminIdx argminAux argminAux
  rw [if_pos (by norm_num)]

lemma gts_eval_half :
    get_ts_pdf (fun _ => (1 / 2 : ℝ)) (fun _ => (1 / 2 : ℝ)) 1 1 1 5 2 =
      PyResult.ok [0] := by
  have hex : ∃ n : ℕ, ((fun _ : ℕ => (1 / 2 : ℝ)) n) ≤ 5 := ⟨0, by norm_num⟩
  unfold get_ts_pdf
  rw [dif_pos hex]
  dsimp only
  rw [linspace_eval]
  rw [if_neg (by simp : ¬([(0 : ℝ), 5 / 2] = [])), if_neg one_ne_zero]
  rw [find_nearest_eval_half]
  have hmc : markovChain (fun _ => (1 / 2 : ℝ)) [0, 5 / 2]
      (((List.range 2).map
        (fun (i : ℕ) => gaussian (i : ℝ) 0 (1 / 1 / hwem_m))).get? 1) 0 1
      (1 - 1) = PyResult.ok [] := by
    unfold markovChain
    rfl
  rw [hmc]
  dsimp only
  norm_num

lemma gts_eval_two :
    get_ts_pdf (fun _ => (2 : ℝ)) (fun _ => (1 / 2 : ℝ)) 1 1 1 5 2 =
      PyResult.ok [5 / 2] := by
  have hex : ∃ n : ℕ, ((fun _ : ℕ => (2 : ℝ)) n) ≤ 5 := ⟨0, by norm_num⟩
  unfold get_ts_pdf
  rw [dif_pos hex]
  dsimp only
  rw [linspace_eval]
  rw [if_neg (by simp : ¬([(0 : ℝ), 5 / 2] = [])), if_neg one_ne_zero]
  rw [find_nearest_eval_two]
  have hmc : markovChain (fun _ => (1 / 2 : ℝ)) [0, 5 / 2]
      (((List.range 2).map
        (fun (i : ℕ) => gaussian (i : ℝ) 0 (1 / 1 / hwem_m))).get? 1) 1 1
      (1 - 1) = PyResult.ok [] := by
    unfold markovChain
    rfl
  rw [hmc]
  dsimp only
  norm_num

end GenPdfEval

/-- Claim C1 (amended): when the probability vector handed to
`np.random.choice` is degenerate (all-zero, hence not a valid PMF — the
situation the claim describes), the chain step of `get_ts_pdf` terminates
the host process with exit code 1 via the bare `except: sys.exit(1)`
handler; it signals no error of any kind to the caller (no
`DistributionCollapseError` exists anywhere in the code). -/
theorem C1_degenerate_pmf_exits (p : List ℝ) (u : ℝ) (h : ¬ pmfValid p) :
    drawNext p u = PyResult.exit 1 ∧
      ∀ e, drawNext p u ≠ PyResult.raised e := by
  unfold drawNext
  rw [if_neg h]
  exact ⟨rfl, fun e => by simp⟩

/-- Witness for C1_degenerate_pmf_exits at the all-zero probability
vector. -/
theorem C1_degenerate_pmf_exits_witness :
    ¬ pmfValid [(0 : ℝ), 0, 0] ∧
      drawNext [(0 : ℝ), 0, 0] (1 / 3) = PyResult.exit 1 :=
  have h : ¬ pmfValid [(0 : ℝ), 0, 0] := by
    intro hv
    have := hv.2
    norm_num at this
  ⟨h, (C1_degenerate_pmf_exits [(0 : ℝ), 0, 0] (1 / 3) h).1⟩

/-- Counterexample to claim C1 as stated: on an all-zero probability mass
vector the chain step of `get_ts_pdf` is process termination (`sys.exit(1)`),
not an explicit error signalled to the caller. -/
theorem C1_counterexample :
    drawNext [(0 : ℝ), 0, 0] (1 / 2) = PyResult.exit 1 ∧
      drawNext [(0 : ℝ), 0, 0] (1 / 2) ≠ PyResult.raised PyExn.valueError ∧
      drawNext [(0 : ℝ), 0, 0] (1 / 2) ≠ PyResult.raised PyExn.indexError := by
  have h : ¬ pmfValid [(0 : ℝ), 0, 0] := by
    intro hv
    have := hv.2
    norm_num at this
  unfold drawNext
  rw [if_neg h]
  exact ⟨rfl, by simp, by simp⟩

/-- Claim C3 (amended): `get_ts_pdf` takes no seed or generator argument;
its output is a pure function of `(t_d, dt, num_samples, max_g, steps)`
TOGETHER WITH the state of the ambient global NumPy generator (modelled by
the two draw streams).  Two calls agreeing on the five parameters and on
the consumed global draw streams return identical results. -/
theorem C3_stream_determinism (ed ed2 ud ud2 : ℕ → ℝ) (t_d dt max_g : ℝ)
    (num_samples steps : ℕ) (he : ∀ n, ed n = ed2 n)
    (hu : ∀ n, ud n = ud2 n) :
    get_ts_pdf ed ud t_d dt num_samples max_g steps =
      get_ts_pdf ed2 ud2 t_d dt num_samples max_g steps := by
  have h1 : ed = ed2 := funext he
  have h2 : ud = ud2 := funext hu
  rw [h1, h2]

/-- Witness for C3_stream_determinism (identical streams, concrete
parameters). -/
theorem C3_stream_determinism_witness :
    get_ts_pdf (fun _ => (1 / 2 : ℝ)) (fun _ => (1 / 2 : ℝ)) 1 1 1 5 2 =
      get_ts_pdf (fun _ => (1 / 2 : ℝ)) (fun _ => (1 / 2 : ℝ)) 1 1 1 5 2 :=
  C3_stream_determinism (fun _ => (1 / 2 : ℝ)) (fun _ => (1 / 2 : ℝ))
    (fun _ => (1 / 2 : ℝ)) (fun _ => (1 / 2 : ℝ)) 1 1 5 1 2
    (fun _ => rfl) (fun _ => rfl)

/-- Counterexample to claim C3 as stated: `get_ts_pdf` has no sixth
`seed` argument, and two calls with identical `(t_d, dt, num_samples,
max_g, steps) = (1, 1, 1, 5, 2)` but different ambient global generator
states return different sequences (`[0]` versus `[5/2]`). -/
theorem C3_counterexample :
    get_ts_pdf (fun _ => (1 / 2 : ℝ)) (fun _ => (1 / 2 : ℝ)) 1 1 1 5 2 ≠
      get_ts_pdf (fun _ => (2 : ℝ)) (fun _ => (1 / 2 : ℝ)) 1 1 1 5 2 := by
  rw [gts_eval_half, gts_eval_two]
  intro h
  injection h with h1
  injection h1 with h2 h3
  norm_num at h2

/-! Spectral synthesizer (`simulations/timeseries/fft.py`). -/

/-- `np.fft.fftshift`: roll by `N // 2`, i.e. swap `drop ⌈N/2⌉` and
`take ⌈N/2⌉`. -/
def fftshift {β : Type} (l : List β) : List β :=
  l.drop ((l.length + 1) / 2) ++ l.take ((l.length + 1) / 2)

/-- The lag axis of `get_ts_fft`:
`np.fft.fftshift(np.linspace(0, N-1, N) - N/2)`. -/
noncomputable def fftLags (num_samples : ℕ) : List ℝ :=
  fftshift ((List.range num_samples).map
    (fun (i : ℕ) => (i : ℝ) - (num_samples : ℝ) / 2))

/-- Embedding of `diag_stats.scint_acf(x, t_d, pow)` (lines 116-120):
`np.exp(-(np.abs(x / t_d))**pow)` (real-exponent power). -/
noncomputable def scint_acf (x t_d pow : ℝ) : ℝ :=
  Real.exp (-(|x / t_d| ^ pow))

/-- `np.fft.fft` of a complex list:
`X[k] = ∑_n x[n] exp(-2πi k n / N)`. -/
noncomputable def npFFT (x : List ℂ) : List ℂ :=
  (List.range x.length).map (fun (k : ℕ) =>
    ((List.range x.length).map (fun (n : ℕ) =>
      x.getD n 0 *
        Complex.exp (-2 * (Real.pi : ℂ) * Complex.I * (k : ℂ) * (n : ℂ) /
          (x.length : ℂ)))).sum)

/-- `np.fft.ifft` of a complex list:
`x[n] = (1/N) ∑_k X[k] exp(2πi k n / N)`. -/
noncomputable def npIFFT (x : List ℂ) : List ℂ :=
  (List.range x.length).map (fun (n : ℕ) =>
    ((List.range x.length).map (fun (k : ℕ) =>
      x.getD k 0 *
        Complex.exp (2 * (Real.pi : ℂ) * Complex.I * (k : ℂ) * (n : ℂ) /
          (x.length : ℂ)))).sum / (x.length : ℂ))

/-- The target power spectrum of `get_ts_fft` (fft.py lines 31-34):
`np.fft.fft(diag_stats.scint_acf(lags, t_d / dt * 2**(1/pow), pow)).real`.
The source performs NO clamping of negative values here. -/
noncomputable def spectrumFFT (t_d dt pow : ℝ) (num_samples : ℕ) : List ℝ :=
  (npFFT ((fftLags num_samples).map
    (fun lag =>
      (scint_acf lag (t_d / dt * (2 : ℝ) ^ (1 / pow)) pow : ℂ)))).map
    Complex.re

/-- The spectrum as the SPEC describes it: every negative value clamped to
zero before the square root.  This follows the spec's words, for
comparison with `spectrumFFT`, which is what the source computes. -/
noncomputable def spectrumClamped (t_d dt pow : ℝ) (num_samples : ℕ) :
    List ℝ :=
  (spectrumFFT t_d dt pow num_samples).map (fun s => max s 0)

/-- Embedding of `get_ts_fft(t_d, dt, num_samples, pow, seed)` (fft.py
lines 5-37).  The seeded generator supplies the standard-normal draws
`noiseRe`, `noiseIm`.  NumPy's `np.sqrt` of a negative spectrum entry is
NaN; `Real.sqrt` of the exact model is 0 there, so claim C4 is settled on
the ARGUMENT of the square root (`spectrumFFT`), which the source passes
unclamped. -/
noncomputable def get_ts_fft (t_d dt : ℝ) (num_samples : ℕ) (pow : ℝ)
    (noiseRe noiseIm : ℕ → ℝ) : List ℝ :=
  let noise := (List.range num_samples).map (fun (n : ℕ) =>
    ((noiseRe n : ℂ) + (noiseIm n : ℂ) * Complex.I) / ((Real.sqrt 2 : ℝ) : ℂ))
  let spectrum := spectrumFFT t_d dt pow num_samples
  let noisySpec := (List.range num_samples).map (fun (n : ℕ) =>
    noise.getD n 0 * ((Real.sqrt (spectrum.getD n 0) : ℝ) : ℂ))
  let Iarr := (npIFFT noisySpec).map (fun z => Complex.abs z ^ 2)
  Iarr.map (fun v => v / (Iarr.sum / (num_samples : ℝ)))

/-- Claim C9: every element of a sequence returned by `get_ts_pdf` lies on
the uniform gain grid `linspace 0 max_g steps` and in the half-open
interval `[0, max_g)` — the rejection-sampled initial element as well as
every subsequent chain step (the uniform draws of the global generator lie
in `[0,1)`, as NumPy guarantees). -/
theorem C9_output_in_grid (ed ud : ℕ → ℝ) (t_d dt max_g : ℝ)
    (num_samples steps : ℕ) (ys : List ℝ)
    (hu : ∀ n, 0 ≤ ud n ∧ ud n < 1) (hmg : 0 < max_g)
    (hok : get_ts_pdf ed ud t_d dt num_samples max_g steps = PyResult.ok ys) :
    ∀ y ∈ ys, y ∈ linspace 0 max_g steps ∧ 0 ≤ y ∧ y < max_g := by
  unfold get_ts_pdf at hok
  by_cases hex : ∃ n, ed n ≤ max_g
  · rw [dif_pos hex] at hok
    dsimp only at hok
    by_cases hnil : linspace 0 max_g steps = []
    · rw [if_pos hnil] at hok
      cases hok
    · rw [if_neg hnil] at hok
      by_cases h0 : num_samples = 0
      · rw [if_pos h0] at hok
        cases hok
      · rw [if_neg h0] at hok
        cases hmc : markovChain ud (linspace 0 max_g steps)
            (((List.range steps).map
              (fun (i : ℕ) => gaussian (i : ℝ) 0 (t_d / dt / hwem_m))).get? 1)
            (find_nearest (linspace 0 max_g steps) (ed (Nat.find hex))) 1
            (num_samples - 1) with
        | ok rest =>
          rw [hmc] at hok
          dsimp only at hok
          cases hok
          intro y hy
          rcases List.mem_map.mp hy with ⟨j, hj, rfl⟩
          have hlenls : (linspace 0 max_g steps).length = steps := by
            unfold linspace
            rw [List.length_map, List.length_range]
          have hjlt : j < steps := by
            rcases List.mem_cons.mp hj with rfl | hj2
            · have := find_nearest_lt hnil (ed (Nat.find hex))
              rwa [hlenls] at this
            · have := markovChain_ok_mem hu (num_samples - 1) _ 1 rest hmc j hj2
              rwa [hlenls] at this
          exact linspace_getD_bounds hjlt hmg
        | raised e => rw [hmc] at hok; dsimp only at hok; cases hok
        | exit c => rw [hmc] at hok; dsimp only at hok; cases hok
        | diverge => rw [hmc] at hok; dsimp only at hok; cases hok
  · rw [dif_neg hex] at hok
    cases hok

/-- Witness for C9_output_in_grid at a concrete one-sample run returning
`[0]`. -/
theorem C9_output_in_grid_witness :
    get_ts_pdf (fun _ => (1 / 2 : ℝ)) (fun _ => (1 / 2 : ℝ)) 1 1 1 5 2 =
        PyResult.ok [0] ∧
      ((0 : ℝ) ∈ linspace 0 5 2 ∧ (0 : ℝ) ≤ 0 ∧ (0 : ℝ) < 5) :=
  ⟨gts_eval_half,
    C9_output_in_grid (fun _ => (1 / 2 : ℝ)) (fun _ => (1 / 2 : ℝ)) 1 1 5 1 2
      [0] (fun _ => ⟨by norm_num, by norm_num⟩) (by norm_num) gts_eval_half 0
      (by simp)⟩

/-- Claim C8: for valid inputs (`g1 ≥ 0`, grid values `≥ 0`,
`ac ∈ [0,1)`) every value produced by `bpdf` is non-negative (and, being a
real number of the exact model, finite), and the Bessel-overflow fallback
is a pure conditional branch: the result is either the WHOLE array in
asymptotic form or the WHOLE array in primary form — never a mixture. -/
theorem C8_bpdf_nonneg_pure_branch (g1 : ℝ) (g2s : List ℝ) (ac : ℝ)
    (hg1 : 0 ≤ g1) (hg2 : ∀ g ∈ g2s, 0 ≤ g) (hac0 : 0 ≤ ac) (hac1 : ac < 1) :
    (∀ y ∈ bpdf g1 g2s ac, 0 ≤ y) ∧
      (bpdf g1 g2s ac = g2s.map (fun g2 => bpdfAsympt g1 g2 ac) ∨
        bpdf g1 g2s ac = g2s.map (fun g2 => bpdfPrimary g1 g2 ac)) := by
  constructor
  · intro y hy
    unfold bpdf at hy
    split at hy
    · rcases List.mem_map.mp hy with ⟨g2, _, rfl⟩
      exact bpdfAsympt_nonneg hac1
    · rcases List.mem_map.mp hy with ⟨g2, _, rfl⟩
      exact bpdfPrimary_nonneg hac1
  · unfold bpdf
    split
    · exact Or.inl rfl
    · exact Or.inr rfl

/-- Witness for C8_bpdf_nonneg_pure_branch at `g1 = 1`, grid `[1, 2]`,
`ac = 1/2`. -/
theorem C8_bpdf_nonneg_pure_branch_witness :
    (0 ≤ (bpdf 1 [1, 2] (1 / 2)).getD 0 0) ∧
      (bpdf 1 [1, 2] (1 / 2) =
          [1, 2].map (fun g2 => bpdfAsympt 1 g2 (1 / 2)) ∨
        bpdf 1 [1, 2] (1 / 2) =
          [1, 2].map (fun g2 => bpdfPrimary 1 g2 (1 / 2))) := by
  have h := C8_bpdf_nonneg_pure_branch 1 [1, 2] (1 / 2) (by norm_num)
    (by
      intro g hg
      simp at hg
      rcases hg with rfl | rfl <;> norm_num)
    (by norm_num) (by norm_num)
  refine ⟨?_, h.2⟩
  apply h.1
  rcases h.2 with hb | hb <;>
    · rw [hb]
      simp

section FFTSpectrumLemmas

lemma fftLags_four : fftLags 4 = [0, 1, -2, -1] := by
  unfold fftLags fftshift
  norm_num [List.range_succ]

lemma tau_pos : (0 : ℝ) < 3 / 2 * 2 ^ ((1 : ℝ) / 8) := by
  have := Real.rpow_pos_of_pos (by norm_num : (0:ℝ) < 2) ((1 : ℝ) / 8)
  nlinarith

lemma tau_rpow_eight :
    ((3 : ℝ) / 2 * 2 ^ ((1 : ℝ) / 8)) ^ (8 : ℝ) = 6561 / 128 := by
  rw [Real.mul_rpow (by norm_num) (Real.rpow_nonneg (by norm_num) _)]
  rw [← Real.rpow_mul (by norm_num : (0:ℝ) ≤ 2)]
  rw [show (1:ℝ) / 8 * 8 = 1 by norm_num, Real.rpow_one]
  rw [show (8:ℝ) = ((8:ℕ):ℝ) by norm_num, Real.rpow_natCast]
  norm_num

lemma scint_f0 :
    scint_acf 0 ((3:ℝ)/2 * 2 ^ ((1:ℝ)/8)) 8 = 1 := by
  unfold scint_acf
  rw [zero_div, abs_zero, Real.zero_rpow (by norm_num : (8:ℝ) ≠ 0)]
  simp

lemma scint_neg (x t_d p : ℝ) : scint_acf (-x) t_d p = scint_acf x t_d p := by
  unfold scint_acf
  rw [neg_div, abs_neg]

lemma scint_f1 :
    scint_acf 1 ((3:ℝ)/2 * 2 ^ ((1:ℝ)/8)) 8 = Real.exp (-(128 / 6561)) := by
  unfold scint_acf
  have hτ := tau_pos
  rw [abs_of_pos (by positivity)]
  rw [Real.div_rpow (by norm_num) hτ.le]
  rw [Real.one_rpow, tau_rpow_eight]
  norm_num

lemma scint_f2 :
    scint_acf 2 ((3:ℝ)/2 * 2 ^ ((1:ℝ)/8)) 8 = Real.exp (-(32768 / 6561)) := by
  unfold scint_acf
  have hτ := tau_pos
  rw [abs_of_pos (by positivity)]
  rw [Real.div_rpow (by norm_num) hτ.le]
  rw [tau_rpow_eight]
  rw [show (8:ℝ) = ((8:ℕ):ℝ) by norm_num, Real.rpow_natCast]
  norm_num

lemma cexp_neg_pi : Complex.exp (-((Real.pi : ℂ) * Complex.I)) = -1 := by
  rw [Complex.exp_neg, Complex.exp_pi_mul_I]
  norm_num

lemma cexp_neg_two_pi :
    Complex.exp (-(2 * (Real.pi : ℂ) * Complex.I)) = 1 := by
  rw [Complex.exp_neg, Complex.exp_two_pi_mul_I]
  norm_num

lemma cexp_neg_three_pi :
    Complex.exp (-(3 * ((Real.pi : ℂ) * Complex.I))) = -1 := by
  have h : (-(3 * ((Real.pi : ℂ) * Complex.I)) : ℂ) =
      -((Real.pi : ℂ) * Complex.I) + -(2 * (Real.pi : ℂ) * Complex.I) := by
    ring
  rw [h, Complex.exp_add, cexp_neg_pi, cexp_neg_two_pi]
  norm_num

lemma spectrum_3284_entry2 :
    (spectrumFFT 3 2 8 4).getD 2 0 =
      1 - Real.exp (-(128 / 6561)) +
        (Real.exp (-(32768 / 6561)) - Real.exp (-(128 / 6561))) := by
  unfold spectrumFFT
  rw [fftLags_four]
  rw [List.map_cons, List.map_cons, List.map_cons, List.map_cons, List.map_nil]
  rw [show ((-2 : ℝ)) = -(2:ℝ) by norm_num, show ((-1 : ℝ)) = -(1:ℝ) by norm_num]
  rw [scint_neg, scint_neg]
  rw [scint_f0, scint_f1, scint_f2]
  unfold npFFT
  simp only [List.length_cons, List.length_nil]
  norm_num [List.range_succ]
  have e1 : Complex.exp (-(2 * (Real.pi : ℂ) * Complex.I * 2) / 4) = -1 := by
    rw [show (-(2 * (Real.pi : ℂ) * Complex.I * 2) / 4 : ℂ) =
        -((Real.pi : ℂ) * Complex.I) by ring]
    exact cexp_neg_pi
  have e2 : Complex.exp (-(2 * (Real.pi : ℂ) * Complex.I * 2 * 2) / 4) = 1 := by
    rw [show (-(2 * (Real.pi : ℂ) * Complex.I * 2 * 2) / 4 : ℂ) =
        -(2 * (Real.pi : ℂ) * Complex.I) by ring]
    exact cexp_neg_two_pi
  have e3 : Complex.exp (-(2 * (Real.pi : ℂ) * Complex.I * 2 * 3) / 4) = -1 := by
    rw [show (-(2 * (Real.pi : ℂ) * Complex.I * 2 * 3) / 4 : ℂ) =
        -(3 * ((Real.pi : ℂ) * Complex.I)) by ring]
    exact cexp_neg_three_pi
  rw [show (-(128 / 6561) : ℂ) = ((-(128 / 6561) : ℝ) : ℂ) by norm_num,
      show (-(32768 / 6561) : ℂ) = ((-(32768 / 6561) : ℝ) : ℂ) by norm_num,
      ← Complex.ofReal_exp, ← Complex.ofReal_exp, e1, e2, e3]
  simp only [Complex.ofReal_re, Complex.ofReal_im, Complex.neg_re,
    Complex.neg_im, Complex.one_re, Complex.one_im]
  ring_nf

lemma spectrum_key_neg :
    1 - Real.exp (-(128 / 6561)) + (Real.exp (-(32768 / 6561)) -
      Real.exp (-(128 / 6561))) < 0 := by
  have hb : 1 - (128 : ℝ) / 6561 ≤ Real.exp (-(128 / 6561)) := by
    have := Real.add_one_le_exp (-(128 / 6561 : ℝ))
    linarith
  have hc : Real.exp (-(32768 / 6561 : ℝ)) < 1 / 2 := by
    have h1 : Real.exp (-(32768 / 6561 : ℝ)) ≤ Real.exp (-1 : ℝ) :=
      Real.exp_le_exp.mpr (by norm_num)
    have h2 : Real.exp (-1 : ℝ) < 1 / 2 := by
      rw [Real.exp_neg]
      have := Real.exp_one_gt_d9
      rw [inv_lt_comm₀ (by positivity) (by norm_num)]
      linarith
    linarith
  linarith

lemma spectrum_neg : (spectrumFFT 3 2 8 4).getD 2 0 < 0 := by
  rw [spectrum_3284_entry2]
  exact spectrum_key_neg

lemma spectrumFFT_length (t_d dt pow : ℝ) (num_samples : ℕ) :
    (spectrumFFT t_d dt pow num_samples).length = num_samples := by
  unfold spectrumFFT npFFT fftLags fftshift
  simp only [List.length_map, List.length_append, List.length_drop,
    List.length_take, List.length_range]
  omega

lemma spectrumClamped_ne : spectrumClamped 3 2 8 4 ≠ spectrumFFT 3 2 8 4 := by
  intro h
  have hlen : (2 : ℕ) < (spectrumFFT 3 2 8 4).length := by
    rw [spectrumFFT_length]
    norm_num
  have hc : (spectrumClamped 3 2 8 4).getD 2 0 =
      max ((spectrumFFT 3 2 8 4).getD 2 0) 0 := by
    unfold spectrumClamped
    rw [List.getD_eq_getElem _ _ (by simpa [List.length_map] using hlen),
      List.getElem_map, ← List.getD_eq_getElem _ _ hlen]
  rw [h] at hc
  have hmax : (0 : ℝ) ≤ max ((spectrumFFT 3 2 8 4).getD 2 0) 0 :=
    le_max_right _ _
  have := spectrum_neg
  linarith [hc ▸ hmax]

end FFTSpectrumLemmas

/-- Claim C4 (amended): `get_ts_fft` performs NO clamping — the square-root
step receives the raw real part of the FFT of the sampled `scint_acf`
unchanged, and there exist valid inputs (`t_d = 3, dt = 2, pow = 8, N = 4`)
for which that spectrum contains a strictly negative entry, where the
spec-mandated clamped spectrum would differ from the one the source uses
(in IEEE arithmetic `np.sqrt` then produces NaN). -/
theorem C4_no_clamp_negative_sqrt_arg :
    ∃ (t_d dt pow : ℝ) (num_samples n : ℕ),
      (spectrumFFT t_d dt pow num_samples).getD n 0 < 0 ∧
        spectrumClamped t_d dt pow num_samples ≠
          spectrumFFT t_d dt pow num_samples :=
  ⟨3, 2, 8, 4, 2, spectrum_neg, spectrumClamped_ne⟩

/-- Counterexample to claim C4 as stated: at `t_d = 3, dt = 2, pow = 8,
N = 4` the target power spectrum of `get_ts_fft` has a negative entry at
index 2, so the square-root step DOES receive a negative argument — no
clamping happens, and the clamped spectrum differs from the spectrum the
source actually feeds to `np.sqrt`. -/
theorem C4_counterexample :
    (spectrumFFT 3 2 8 4).getD 2 0 < 0 ∧
      spectrumClamped 3 2 8 4 ≠ spectrumFFT 3 2 8 4 :=
  ⟨spectrum_neg, spectrumClamped_ne⟩

end Blscint
